import Mathlib

set_option maxRecDepth 8192
set_option exponentiation.threshold 2048

/-!
Shallow embedding of the sysprop generator core: the schema validator of
`Common.cpp` and the generated accessor code (parse/format functions) whose
exact text is asserted by the CppGen test. Strings are modelled as `List Char`;
`std::optional` as `Option`; the C `errno` state is passed explicitly.
-/

/-! ## Definitions -/

abbrev Str := List Char

def str (s : String) : Str := s.data

/-- ASCII `isalpha` in the C locale. -/
def isAlphaC (c : Char) : Bool := ('A' ≤ c && c ≤ 'Z') || ('a' ≤ c && c ≤ 'z')

/-- ASCII `isdigit` in the C locale. -/
def isDigitC (c : Char) : Bool := '0' ≤ c && c ≤ '9'

/-- ASCII `isalnum` in the C locale. -/
def isAlnumC (c : Char) : Bool := isAlphaC c || isDigitC c

/-- ASCII `isspace` in the C locale. -/
def isSpaceC (c : Char) : Bool :=
  c = ' ' || c = '\t' || c = '\n' || c = '\x0b' || c = '\x0c' || c = '\r'

/-- ASCII `tolower` in the C locale. -/
def asciiToLower (c : Char) : Char :=
  if 'A' ≤ c && c ≤ 'Z' then Char.ofNat (c.toNat + 32) else c

/-- ASCII `toupper` in the C locale. -/
def asciiToUpper (c : Char) : Char :=
  if 'a' ≤ c && c ≤ 'z' then Char.ofNat (c.toNat - 32) else c

/-- `android::base::Split` restricted to a single delimiter character, as used
by the sources (delimiters `","`, `"|"`, `"."`). It keeps empty tokens and
returns `[""]` on the empty string, exactly like the library routine. -/
def Split (s : Str) (delim : Char) : List Str :=
  match s with
  | [] => [[]]
  | c :: rest =>
    if c = delim then [] :: Split rest delim
    else
      match Split rest delim with
      | [] => [[c]]
      | t :: ts => (c :: t) :: ts

/-- Case-insensitive image of a string under ASCII `tolower`; two strings are
equal under `strcasecmp` exactly when their images under this map are equal. -/
def lowerStr (s : Str) : Str := s.map asciiToLower

/-- `ToUpper` from Common.cpp: uppercase every character via C `toupper`. -/
def ToUpper (s : Str) : Str := s.map asciiToUpper

/-- `DoParse<bool>`: `strcasecmp` against `{"1","true"}` then `{"0","false"}`. -/
def DoParseBool (s : Str) : Option Bool :=
  if lowerStr (str "1") == lowerStr s || lowerStr (str "true") == lowerStr s then
    some true
  else if lowerStr (str "0") == lowerStr s || lowerStr (str "false") == lowerStr s then
    some false
  else
    none

/-- Decimal string-to-integer conversion used by the `ParseInt` model below. -/
def digitsVal (l : List Char) : Nat := l.foldl (fun a c => a * 10 + (c.toNat - 48)) 0

/-- Modelled from the spec: `android::base::ParseInt` (external library used by
the generated `DoParse<std::int32_t>` / `DoParse<std::int64_t>`): a strict
decimal integer parse of the whole token with a range check; any trailing
garbage or out-of-range value yields failure. Leading whitespace skipping of
the underlying `strtoll` is not modelled (no claim exercises it). -/
def parseDecInt (lo hi : Int) (s : Str) : Option Int :=
  let sgn : Int := match s with | '-' :: _ => -1 | _ => 1
  let rest : Str := match s with | '-' :: r => r | '+' :: r => r | r => r
  if rest.isEmpty then none
  else if rest.all isDigitC then
    let v : Int := sgn * (digitsVal rest : Int)
    if lo ≤ v && v ≤ hi then some v else none
  else none

/-- `DoParse<std::int32_t>` via `android::base::ParseInt`. -/
def DoParseInt32 (s : Str) : Option Int := parseDecInt (-(2 ^ 31)) (2 ^ 31 - 1) s

/-- `DoParse<std::int64_t>` via `android::base::ParseInt`. -/
def DoParseInt64 (s : Str) : Option Int := parseDecInt (-(2 ^ 63)) (2 ^ 63 - 1) s

/-- `DoParse<std::string>`: always succeeds with the raw string. -/
def DoParseString (s : Str) : Option Str := some s

/-- Outcome of a `strtod` call that starts with `errno = 0`: the parsed decimal
value as (mantissa, power-of-ten exponent), the number of characters consumed
(`end - str`), and the `errno` value it leaves behind (0 when untouched). -/
structure StrtodOut where
  mant : Int
  exp10 : Int
  consumed : Nat
  errno : Nat
deriving DecidableEq

/-- The largest finite IEEE-754 double, `DBL_MAX = 2^1024 - 2^971`, exactly. -/
def dblMaxNum : Nat := 2 ^ 1024 - 2 ^ 971

/-- Whether the exact decimal value `mant * 10^e` lies outside the finite
double range (the condition under which the `strtod` model reports `ERANGE`). -/
def decOverflow (mant : Int) (e : Int) : Bool :=
  if mant = 0 then false
  else if 0 ≤ e then decide (mant.natAbs * 10 ^ e.toNat > dblMaxNum)
  else decide (mant.natAbs > dblMaxNum * 10 ^ (-e).toNat)

/-- Modelled from the spec: the C library `strtod` (external collaborator of the
generated `DoParse<double>`) restricted to decimal inputs: optional leading
whitespace, optional sign, a digit sequence optionally containing `.`, and an
optional exponent part; the longest valid initial subject is consumed, no
conversion means zero characters consumed, and overflow beyond the largest
finite double sets `errno` to `ERANGE` (34). Hexadecimal, infinity and NaN
forms and underflow reporting are not modelled; rounding at the exact overflow
boundary is approximated by comparing the exact decimal value with `DBL_MAX`. -/
def strtodModel (s : Str) : StrtodOut :=
  let ws := s.takeWhile isSpaceC
  let r0 := s.drop ws.length
  let sgn : Int := match r0 with | '-' :: _ => -1 | _ => 1
  let signLen : Nat := match r0 with | '-' :: _ => 1 | '+' :: _ => 1 | _ => 0
  let r1 := r0.drop signLen
  let intD := r1.takeWhile isDigitC
  let r2 := r1.drop intD.length
  let hasDot : Bool := match r2 with | '.' :: _ => true | _ => false
  let fracD := if hasDot then (r2.drop 1).takeWhile isDigitC else []
  let r3 := if hasDot then (r2.drop 1).drop fracD.length else r2
  if intD.isEmpty && fracD.isEmpty then
    ⟨0, 0, 0, 0⟩
  else
    let mant : Int := sgn * (digitsVal (intD ++ fracD) : Int)
    let baseConsumed :=
      ws.length + signLen + intD.length + (if hasDot then 1 + fracD.length else 0)
    let expPart : Nat × Int :=
      match r3 with
      | 'e' :: rest | 'E' :: rest =>
        let esgn : Int := match rest with | '-' :: _ => -1 | _ => 1
        let esignLen : Nat := match rest with | '-' :: _ => 1 | '+' :: _ => 1 | _ => 0
        let eD := (rest.drop esignLen).takeWhile isDigitC
        if eD.isEmpty then (0, 0) else (1 + esignLen + eD.length, esgn * (digitsVal eD : Int))
      | _ => (0, 0)
    let e10 : Int := expPart.2 - (fracD.length : Int)
    let consumed := baseConsumed + expPart.1
    let err := if decOverflow mant e10 then 34 else 0
    ⟨mant, e10, consumed, err⟩

/-- `DoParse<double>` with the `errno` state passed explicitly: takes the
`strtod` behaviour as a parameter, the input string and the caller's `errno`,
and returns the optional parsed value together with the `errno` visible to the
caller afterwards. Mirrors the generated code: save `errno`, zero it, call
`strtod`, return failure while `errno` is still set, restore-and-fail on an
empty or incomplete consume, restore-and-succeed otherwise. -/
def DoParseDouble (strtod : Str → StrtodOut) (s : Str) (errno0 : Nat) :
    Option (Int × Int) × Nat :=
  let old_errno := errno0
  let r := strtod s
  if r.errno ≠ 0 then (none, r.errno)
  else if r.consumed = 0 || r.consumed ≠ s.length then (none, old_errno)
  else (some (r.mant, r.exp10), old_errno)

/-- The `el_values` enum generated for the test schema's `el` property
(`enum_values: "enu|mva|lue"`). -/
inductive ElValues where
  | enu
  | mva
  | lue
deriving DecidableEq

/-- The generated name/value table `el_list`. -/
def el_list : List (Str × ElValues) :=
  [(str "enu", ElValues.enu), (str "mva", ElValues.mva), (str "lue", ElValues.lue)]

/-- `DoParse<el_values>`: scan the table for a `strcmp`-equal name. -/
def DoParseEl (s : Str) : Option ElValues :=
  (el_list.find? (fun nv => nv.1 == s)).map (fun nv => nv.2)

/-- `FormatValue(el_values)`: scan the table for the value and return its name.
The generated code aborts (`LOG(FATAL)`, unreachable) when the value is not in
the table; since the table covers every `ElValues` constructor that branch is
dead, embedded here as a default that is never taken (see
`el_format_total`). -/
def FormatValueEl (value : ElValues) : Str :=
  ((el_list.find? (fun nv => nv.2 == value)).map (fun nv => nv.1)).getD []

/-- The token-by-token loop of `DoParseList`: fail as soon as any element
fails, otherwise collect the parsed values in order. -/
def parseTokens {α : Type} (p : Str → Option α) : List Str → Option (List α)
  | [] => some []
  | t :: ts =>
    match p t with
    | none => none
    | some v =>
      match parseTokens p ts with
      | none => none
      | some vs => some (v :: vs)

/-- `DoParseList`: split the raw string on `,` and parse every token with the
element parser. -/
def DoParseList {α : Type} (p : Str → Option α) (s : Str) : Option (List α) :=
  parseTokens p (Split s ',')

/-- One iteration of the generated list `FormatValue` loop: push a `,` when the
accumulator is empty (sic — this is what the generated code does), then append
the formatted element. -/
def formatStep {α : Type} (fmtElem : α → Str) (ret : Str) (element : α) : Str :=
  (if ret.isEmpty then ret ++ [','] else ret) ++ fmtElem element

/-- `FormatValue(const std::vector<T>&)`: empty vector formats to the empty
string; otherwise fold the loop body over the elements. -/
def FormatValueList {α : Type} (fmtElem : α → Str) (value : List α) : Str :=
  if value.isEmpty then [] else value.foldl (formatStep fmtElem) []

/-- `sysprop::Owner`. -/
inductive Owner where
  | Platform
  | Vendor
  | Odm
deriving DecidableEq

/-- `sysprop::AccessMode`. -/
inductive Access where
  | Readonly
  | Writeonce
  | ReadWrite
deriving DecidableEq

/-- `sysprop::Type`: the six scalar kinds and their list variants. -/
inductive PropType where
  | Boolean
  | Integer
  | Long
  | Double
  | String
  | Enum
  | BooleanList
  | IntegerList
  | LongList
  | DoubleList
  | StringList
  | EnumList
deriving DecidableEq

/-- `sysprop::Property`, restricted to the fields the validator reads
(`scope` and the documentation-only fields play no part in validation). -/
structure Property where
  api_name : Str
  prop_name : Str
  type : PropType
  enum_values : Str
  access : Access
  integer_as_bool : Bool
deriving DecidableEq

/-- `sysprop::Properties`: owner, module name and the ordered property list. -/
structure Properties where
  owner : Owner
  module : Str
  prop : List Property
deriving DecidableEq

/-- The failure cases of `Result<void>` in Common.cpp, one constructor per
`Errorf` site, carrying exactly the strings interpolated into the message. -/
inductive ValidationError where
  | invalidApiName (name : Str)
  | emptyEnumValues (api : Str)
  | invalidEnumValue (name api : Str)
  | duplicatedEnumValue (name api : Str)
  | invalidPropName (name : Str)
  | platformNamespace (propName : Str)
  | vendorNamespace (propName : Str)
  | odmNamespace (propName : Str)
  | readWriteRoName (propName : Str)
  | integerAsBoolNotBoolean (propName : Str)
  | invalidModuleName (module : Str)
  | invalidModuleSegment (name : Str)
  | noProperty
  | duplicatedApiName (api : Str)
deriving DecidableEq

/-- `GenerateDefaultPropName` from Common.cpp. -/
def GenerateDefaultPropName (props : Properties) (prop : Property) : Str :=
  let ret : Str := if prop.access ≠ Access.ReadWrite then str "ro." else []
  let ret : Str :=
    ret ++
      match props.owner with
      | Owner.Vendor => str "vendor."
      | Owner.Odm => str "odm."
      | Owner.Platform => []
  ret ++ prop.api_name

/-- `IsCorrectIdentifier` from Common.cpp. -/
def IsCorrectIdentifier (name : Str) : Bool :=
  match name with
  | [] => false
  | c :: rest => (isAlphaC c || c = '_') && rest.all (fun ch => isAlnumC ch || ch = '_')

/-- `IsCorrectPropertyOrApiName` from Common.cpp. -/
def IsCorrectPropertyOrApiName (name : Str) : Bool :=
  !name.isEmpty && name.all (fun ch => isAlnumC ch || ch = '_' || ch = '-' || ch = '.')

/-- `ApiNameToIdentifier` from Common.cpp: replace every `-` or `.` by `_` and
put `_` in front when the first character is a digit. -/
def ApiNameToIdentifier (name : Str) : Str :=
  (if (name.headD (Char.ofNat 0)) |> isDigitC then ['_'] else []) ++
    name.map (fun c => if c = '-' || c = '.' then '_' else c)

/-- `android::base::StartsWith`. -/
def StartsWith (s pre : Str) : Bool := s.take pre.length == pre

/-- The characters the ECMAScript regex `.` refuses to match (line
terminators). -/
def isLineTerm (c : Char) : Bool :=
  c = '\n' || c = '\r' || c = ' ' || c = ' '

/-- Matcher for the regex fragment `.+`: a non-empty run of non-line-terminator
characters constituting the whole remainder. -/
def dotPlus (s : Str) : Bool := !s.isEmpty && s.all (fun c => !isLineTerm c)

/-- Strip a literal front part: `some` of the remainder when `s` begins with
`pre`, `none` otherwise. -/
def matchFront (pre s : Str) : Option Str :=
  if s.take pre.length = pre then some (s.drop pre.length) else none

/-- Full match of the Common.cpp ownership regex
`"(init\.svc\.|ro\.|persist\.)?NS\..+|ro\.hardware\..+"`, where `ns` stands
for the namespace token together with its dot (`"vendor."` or `"odm."`). -/
def nsRegexMatch (ns : Str) (s : Str) : Bool :=
  (match matchFront ns s with | some r => dotPlus r | none => false) ||
  (match matchFront (str "init.svc." ++ ns) s with | some r => dotPlus r | none => false) ||
  (match matchFront (str "ro." ++ ns) s with | some r => dotPlus r | none => false) ||
  (match matchFront (str "persist." ++ ns) s with | some r => dotPlus r | none => false) ||
  (match matchFront (str "ro.hardware.") s with | some r => dotPlus r | none => false)

/-- The owner switch of `ValidateProp`: the vendor/odm namespace rules. -/
def ownershipCheck (owner : Owner) (prop_name : Str) : Option ValidationError :=
  match owner with
  | Owner.Platform =>
    if nsRegexMatch (str "vendor.") prop_name || nsRegexMatch (str "odm.") prop_name then
      some (ValidationError.platformNamespace prop_name)
    else none
  | Owner.Vendor =>
    if !nsRegexMatch (str "vendor.") prop_name then
      some (ValidationError.vendorNamespace prop_name)
    else none
  | Owner.Odm =>
    if !nsRegexMatch (str "odm.") prop_name then
      some (ValidationError.odmNamespace prop_name)
    else none

/-- The duplicate-detection loop of the enum block of `ValidateProp`: insert
`ToUpper name` into the seen-set, failing on the first name already present. -/
def ciDupCheck (api : Str) (seen : List Str) : List Str → Option ValidationError
  | [] => none
  | n :: rest =>
    let u := ToUpper n
    if u ∈ seen then some (ValidationError.duplicatedEnumValue n api)
    else ciDupCheck api (u :: seen) rest

/-- The Enum/EnumList block of `ValidateProp`: split `enum_values` on `|`,
reject when empty, reject the first token that is not a correct identifier,
then reject the first case-insensitive duplicate. -/
def enumTypeCheck (prop : Property) : Option ValidationError :=
  if prop.type = PropType.Enum || prop.type = PropType.EnumList then
    let names := Split prop.enum_values '|'
    if names.isEmpty then some (ValidationError.emptyEnumValues prop.api_name)
    else
      match names.find? (fun n => !IsCorrectIdentifier n) with
      | some n => some (ValidationError.invalidEnumValue n prop.api_name)
      | none => ciDupCheck prop.api_name [] names
  else none

/-- `ValidateProp` from Common.cpp, with each early `return Errorf(...)`
rendered as `some` of the corresponding error. -/
def ValidateProp (props : Properties) (prop : Property) : Option ValidationError :=
  if !IsCorrectPropertyOrApiName prop.api_name then
    some (ValidationError.invalidApiName prop.api_name)
  else
    match enumTypeCheck prop with
    | some e => some e
    | none =>
      let prop_name :=
        if prop.prop_name.isEmpty then GenerateDefaultPropName props prop else prop.prop_name
      if !IsCorrectPropertyOrApiName prop_name then
        some (ValidationError.invalidPropName prop.prop_name)
      else
        match ownershipCheck props.owner prop_name with
        | some e => some e
        | none =>
          if prop.access = Access.ReadWrite && StartsWith prop_name (str "ro.") then
            some (ValidationError.readWriteRoName prop_name)
          else if prop.integer_as_bool &&
              !(prop.type = PropType.Boolean || prop.type = PropType.BooleanList) then
            some (ValidationError.integerAsBoolNotBoolean prop_name)
          else none

/-- The per-property loop of `ValidateProps`: first failing property wins. -/
def validateEach (props : Properties) : List Property → Option ValidationError
  | [] => none
  | p :: rest =>
    match ValidateProp props p with
    | some e => some e
    | none => validateEach props rest

/-- The cross-property loop of `ValidateProps`: insert the sanitized identifier
of every `api_name` into the seen-set, failing on the first collision. -/
def dupApiGo (seen : List Str) : List Property → Option ValidationError
  | [] => none
  | p :: rest =>
    let id := ApiNameToIdentifier p.api_name
    if id ∈ seen then some (ValidationError.duplicatedApiName p.api_name)
    else dupApiGo (id :: seen) rest

/-- `ValidateProps` from Common.cpp: module name checks, non-empty property
list, per-property validation, then cross-property API-name uniqueness. -/
def ValidateProps (props : Properties) : Option ValidationError :=
  let names := Split props.module '.'
  if names.length ≤ 1 then some (ValidationError.invalidModuleName props.module)
  else
    match names.find? (fun n => !IsCorrectIdentifier n) with
    | some n => some (ValidationError.invalidModuleSegment n)
    | none =>
      if props.prop.length = 0 then some ValidationError.noProperty
      else
        match validateEach props props.prop with
        | some e => some e
        | none => dupApiGo [] props.prop

/-- The vendor/odm namespace pattern as the spec words it: an optional prefix
`init.svc.` / `ro.` / `persist.` in front of the namespace token (the token
carries its trailing dot, e.g. `"vendor."`), followed by a non-empty remainder;
or the fixed exception `ro.hardware.` followed by a non-empty remainder. -/
def NsPattern (ns : Str) (s : Str) : Prop :=
  (∃ pre ∈ ([[], str "init.svc.", str "ro.", str "persist."] : List Str),
    ∃ rest, rest ≠ [] ∧ s = pre ++ ns ++ rest) ∨
  (∃ rest, rest ≠ [] ∧ s = str "ro.hardware." ++ rest)

/-- A Platform-owned schema context (module `a.b`). -/
def platProps : Properties := ⟨Owner.Platform, str "a.b", []⟩

/-- A Vendor-owned schema context (module `a.b`). -/
def vendorProps : Properties := ⟨Owner.Vendor, str "a.b", []⟩

/-- A property whose effective store key is `vendor.foo`. -/
def vfooProp : Property :=
  ⟨str "vendor.foo", str "vendor.foo", PropType.String, [], Access.ReadWrite, false⟩

/-- A property whose effective store key is `foo`. -/
def fooProp : Property := ⟨str "foo", str "foo", PropType.String, [], Access.ReadWrite, false⟩

/-- Whether a validation outcome is the duplicated-API-name error. -/
def isDupApiError : Option ValidationError → Bool
  | some (ValidationError.duplicatedApiName _) => true
  | _ => false

/-- Property `api_name: "test-x"` with everything else defaulted. -/
def propTestDashX : Property := ⟨str "test-x", [], PropType.String, [], Access.ReadWrite, false⟩

/-- Property `api_name: "test.x"` with everything else defaulted. -/
def propTestDotX : Property := ⟨str "test.x", [], PropType.String, [], Access.ReadWrite, false⟩

/-- A well-formed schema whose two api_names sanitize to the same identifier. -/
def dupApiSchema : Properties := ⟨Owner.Platform, str "a.b", [propTestDashX, propTestDotX]⟩

/-- The same colliding properties in a schema whose module name is invalid. -/
def badModuleDupApiSchema : Properties := ⟨Owner.Platform, str "x", [propTestDashX, propTestDotX]⟩

/-- Whether a validation outcome is the duplicated-enum-value error. -/
def isDupEnumError : Option ValidationError → Bool
  | some (ValidationError.duplicatedEnumValue _ _) => true
  | _ => false

/-- Enum property with `enum_values: "a|A"` (a case-insensitive duplicate). -/
def enumDupProp : Property := ⟨str "myenum", [], PropType.Enum, str "a|A", Access.ReadWrite, false⟩

/-- Enum property with `enum_values: "1|1"`: the two tokens are equal (hence
case-insensitively equal) but are not valid identifiers. -/
def enumInvalidDupProp : Property :=
  ⟨str "myenum", [], PropType.Enum, str "1|1", Access.ReadWrite, false⟩

/-- Enum property with `enum_values: "a|b"` (valid and pairwise distinct). -/
def enumOkProp : Property := ⟨str "myenum", [], PropType.Enum, str "a|b", Access.ReadWrite, false⟩

/-! ## Theorems -/

/-- The fatal branch of `FormatValue(el_values)` is unreachable: the table scan
succeeds for every value. -/
theorem el_format_total (v : ElValues) : (el_list.find? (fun nv => nv.2 == v)).isSome = true := by
  cases v <;> decide

/-! ### Helper lemmas on the split and list-parse loops -/

theorem Split_ne_nil (s : Str) (d : Char) : Split s d ≠ [] := by
  cases s with
  | nil => simp [Split]
  | cons c rest =>
    simp only [Split]
    by_cases h : c = d
    · simp [h]
    · simp only [h, if_false]
      cases Split rest d <;> simp

theorem parseTokens_eq_none {α : Type} (p : Str → Option α) (l : List Str) :
    parseTokens p l = none ↔ ∃ t ∈ l, p t = none := by
  induction l with
  | nil => simp [parseTokens]
  | cons t ts ih =>
    cases h : p t with
    | none =>
      simp only [parseTokens, h]
      exact iff_of_true (by simp) ⟨t, List.mem_cons_self t ts, h⟩
    | some v =>
      cases h2 : parseTokens p ts with
      | none =>
        simp only [parseTokens, h, h2]
        obtain ⟨x, hx, hpx⟩ := ih.mp h2
        exact iff_of_true (by simp) ⟨x, List.mem_cons_of_mem t hx, hpx⟩
      | some vs =>
        simp only [parseTokens, h, h2]
        constructor
        · intro hc; cases hc
        · rintro ⟨x, hx, hpx⟩
          rcases List.mem_cons.mp hx with rfl | hx'
          · rw [h] at hpx; cases hpx
          · have hn : parseTokens p ts = none := ih.mpr ⟨x, hx', hpx⟩
            rw [h2] at hn; cases hn

theorem parseTokens_eq_some {α : Type} (p : Str → Option α) (l : List Str) (vs : List α) :
    parseTokens p l = some vs ↔ l.map p = vs.map some := by
  induction l generalizing vs with
  | nil => cases vs <;> simp [parseTokens]
  | cons t ts ih =>
    cases h : p t with
    | none =>
      simp only [parseTokens, h, List.map_cons]
      cases vs <;> simp
    | some v =>
      cases h2 : parseTokens p ts with
      | none =>
        simp only [parseTokens, h, h2, List.map_cons]
        cases vs with
        | nil => simp
        | cons v' vs' =>
          simp only [List.map_cons, List.cons.injEq]
          constructor
          · intro hc; cases hc
          · rintro ⟨-, hmap⟩
            have hs : parseTokens p ts = some vs' := (ih vs').mpr hmap
            rw [h2] at hs; cases hs
      | some ws =>
        simp only [parseTokens, h, h2, List.map_cons]
        have hmap : ts.map p = ws.map some := (ih ws).mp h2
        cases vs with
        | nil => simp
        | cons v' vs' =>
          simp only [List.map_cons, List.cons.injEq, Option.some.injEq]
          constructor
          · rintro ⟨rfl, rfl⟩; exact ⟨rfl, hmap⟩
          · rintro ⟨rfl, hmap'⟩
            have hs : parseTokens p ts = some vs' := (ih vs').mpr hmap'
            rw [h2] at hs
            cases hs
            exact ⟨rfl, rfl⟩

/-- C1 (code bug): the stored raw value `"enu,lue"` does parse to the sequence
`[enu, lue]`, but the generated list formatter renders that sequence as
`",enulue"` — a comma in front of the first element and no separator between
elements (its accumulator test is inverted) — not as the comma-joined
`"enu,lue"` the claim (and the round-trip with the comma-splitting parser)
requires. -/
theorem c1_format_comma_divergence :
    DoParseList DoParseEl (str "enu,lue") = some [ElValues.enu, ElValues.lue] ∧
    FormatValueList FormatValueEl [ElValues.enu, ElValues.lue] = str ",enulue" ∧
    str ",enulue" ≠ str "enu" ++ [','] ++ str "lue" := by decide

/-- C6: the list parser splits on `,`, succeeds with exactly the in-order
parses of all tokens when every token parses, and yields no value (never a
partial list) exactly when some token fails. -/
theorem c6_list_parse_all_or_nothing {α : Type} (p : Str → Option α) (s : Str) :
    (DoParseList p s = none ↔ ∃ t ∈ Split s ',', p t = none) ∧
    (∀ vs : List α, DoParseList p s = some vs ↔ (Split s ',').map p = vs.map some) :=
  ⟨parseTokens_eq_none p (Split s ','), fun vs => parseTokens_eq_some p (Split s ',') vs⟩

/-- C10: the list formatter sends the empty sequence to the empty string, while
parsing the empty string splits into the single empty token, so it returns
`some [v]` exactly when the element parser accepts `""` (the one-element
`[""]` for StringList) and no value for the other element kinds — never the
empty sequence, so the empty list does not round-trip. -/
theorem c10_empty_list_no_roundtrip :
    (∀ (α : Type) (fmt : α → Str), FormatValueList fmt [] = []) ∧
    (∀ (α : Type) (p : Str → Option α), DoParseList p [] = (p []).map (fun v => [v])) ∧
    DoParseList DoParseString [] = some [[]] ∧
    DoParseList DoParseBool ([] : Str) = none ∧
    DoParseList DoParseInt32 ([] : Str) = none ∧
    DoParseList DoParseInt64 ([] : Str) = none ∧
    (∀ e0 : Nat, DoParseList (fun t => (DoParseDouble strtodModel t e0).1) ([] : Str) = none) ∧
    DoParseList DoParseEl ([] : Str) = none := by
  refine ⟨fun α fmt => rfl, fun α p => ?_, by decide, by decide, by decide, by decide,
    fun e0 => rfl, by decide⟩
  cases h : p [] <;> simp [DoParseList, Split, parseTokens, h]

/-- C2 (amended): for every `strtod` behaviour, the double parser returns a
value exactly when `strtod` reports no error and consumes the whole non-empty
token; the caller's `errno` is restored on the success path and on the
incomplete-consumption failure path, but when `strtod` sets the error state the
function returns no value with `errno` left at that error value — it is NOT
restored on that path. -/
theorem c2_double_parse_consumption_errno (f : Str → StrtodOut) (s : Str) (e0 : Nat) :
    ((DoParseDouble f s e0).1.isSome = true ↔
      (f s).errno = 0 ∧ 0 < (f s).consumed ∧ (f s).consumed = s.length) ∧
    (DoParseDouble f s e0).2 = (if (f s).errno = 0 then e0 else (f s).errno) := by
  unfold DoParseDouble
  cases hfs : f s with
  | mk m e c err =>
    simp only [hfs]
    by_cases herr : err = 0
    · subst herr
      simp only [ne_eq, not_true_eq_false, if_false, reduceIte]
      by_cases hc0 : c = 0
      · subst hc0
        simp
      · by_cases hcl : c = s.length
        · subst hcl
          simp [hc0, Nat.pos_of_ne_zero hc0]
        · simp [hc0, hcl]
    · simp [herr]

/-- C2 counterexample: with the caller's `errno` initially 0, parsing the
overflowing token `"1e309"` returns no value and leaves `errno` at 34
(`ERANGE`) — the numeric error state is not the same after the call as before
it, contradicting the claim's every-path restoration. -/
theorem c2_errno_not_restored :
    DoParseDouble strtodModel (str "1e309") 0 = (none, 34) ∧ (34 : Nat) ≠ 0 := by decide

/-- C7: the derived default store key is the `ro.` prefix exactly when access
is not ReadWrite, then the owner's namespace segment (`vendor.` / `odm.` /
nothing), then the unsanitized `api_name`; the derivation is a total function
(it is a Lean `def`, defined for every input). -/
theorem c7_default_prop_name (props : Properties) (prop : Property) :
    GenerateDefaultPropName props prop =
      (if prop.access = Access.ReadWrite then ([] : Str) else str "ro.") ++
        ((match props.owner with
          | Owner.Vendor => str "vendor."
          | Owner.Odm => str "odm."
          | Owner.Platform => ([] : Str)) ++ prop.api_name) := by
  unfold GenerateDefaultPropName
  cases hacc : prop.access <;> cases how : props.owner <;> simp

/-- C5: the Boolean parser returns true exactly for strings case-insensitively
equal to "1" or "true", false exactly for "0" or "false", and no value for
every other string. -/
theorem c5_bool_parse (s : Str) :
    (DoParseBool s = some true ↔
      (lowerStr s = lowerStr (str "1") ∨ lowerStr s = lowerStr (str "true"))) ∧
    (DoParseBool s = some false ↔
      (lowerStr s = lowerStr (str "0") ∨ lowerStr s = lowerStr (str "false"))) ∧
    (DoParseBool s = none ↔
      ¬(lowerStr s = lowerStr (str "1") ∨ lowerStr s = lowerStr (str "true") ∨
        lowerStr s = lowerStr (str "0") ∨ lowerStr s = lowerStr (str "false"))) := by
  unfold DoParseBool
  by_cases hA : lowerStr s = lowerStr (str "1")
  · rw [hA]; decide
  by_cases hB : lowerStr s = lowerStr (str "true")
  · rw [hB]; decide
  by_cases hC : lowerStr s = lowerStr (str "0")
  · rw [hC]; decide
  by_cases hD : lowerStr s = lowerStr (str "false")
  · rw [hD]; decide
  have e1 : (lowerStr (str "1") == lowerStr s) = false :=
    beq_eq_false_iff_ne.mpr fun h => hA h.symm
  have e2 : (lowerStr (str "true") == lowerStr s) = false :=
    beq_eq_false_iff_ne.mpr fun h => hB h.symm
  have e3 : (lowerStr (str "0") == lowerStr s) = false :=
    beq_eq_false_iff_ne.mpr fun h => hC h.symm
  have e4 : (lowerStr (str "false") == lowerStr s) = false :=
    beq_eq_false_iff_ne.mpr fun h => hD h.symm
  simp [e1, e2, e3, e4, hA, hB, hC, hD]

theorem matchFront_some_iff (pre s r : Str) : matchFront pre s = some r ↔ s = pre ++ r := by
  unfold matchFront
  by_cases h : s.take pre.length = pre
  · rw [if_pos h]
    constructor
    · rintro ⟨rfl⟩
      conv_lhs => rw [← List.take_append_drop pre.length s]
      rw [h]
    · rintro rfl
      have hd : (pre ++ r).drop pre.length = r := by
        rw [List.drop_append_of_le_length (Nat.le_refl _), List.drop_length, List.nil_append]
      rw [hd]
  · rw [if_neg h]
    constructor
    · intro hc; cases hc
    · rintro rfl
      exact absurd (by rw [List.take_append_of_le_length (Nat.le_refl _), List.take_length]) h

/-- A character allowed in a property name is not a regex line terminator. -/
theorem allowed_not_lineTerm (c : Char)
    (h : (isAlnumC c || c = '_' || c = '-' || c = '.') = true) : isLineTerm c = false := by
  simp only [Bool.or_eq_true, decide_eq_true_eq] at h
  simp only [isLineTerm, Bool.or_eq_false_iff, decide_eq_false_iff_not]
  refine ⟨⟨⟨?_, ?_⟩, ?_⟩, ?_⟩ <;> rintro rfl <;> revert h <;> decide

/-- Remainders of a valid property name satisfy the `.+` matcher. -/
theorem dotPlus_of_allowed (s rest : Str) (hsub : ∀ c ∈ rest, c ∈ s)
    (hs : IsCorrectPropertyOrApiName s = true) (hne : rest ≠ []) : dotPlus rest = true := by
  unfold IsCorrectPropertyOrApiName at hs
  simp only [Bool.and_eq_true, List.all_eq_true] at hs
  unfold dotPlus
  simp only [Bool.and_eq_true, List.all_eq_true, Bool.not_eq_true']
  constructor
  · simpa [List.isEmpty_iff] using hne
  · intro c hc
    exact allowed_not_lineTerm c (hs.2 c (hsub c hc))

/-- One alternative of the regex matcher evaluated through `matchFront`. -/
theorem nsAlt_true_iff (pre s : Str) :
    (match matchFront pre s with | some r => dotPlus r | none => false) = true ↔
      ∃ r, matchFront pre s = some r ∧ dotPlus r = true := by
  cases hm : matchFront pre s with
  | none => simp
  | some r => simp

/-- The compiled ownership regex agrees with the spec's pattern description on
every well-formed property name. -/
theorem nsRegexMatch_iff (ns s : Str) (hs : IsCorrectPropertyOrApiName s = true) :
    nsRegexMatch ns s = true ↔ NsPattern ns s := by
  unfold nsRegexMatch NsPattern
  simp only [Bool.or_eq_true, nsAlt_true_iff]
  constructor
  · rintro ((((⟨r, hm, hdp⟩ | ⟨r, hm, hdp⟩) | ⟨r, hm, hdp⟩) | ⟨r, hm, hdp⟩) | ⟨r, hm, hdp⟩) <;>
      rw [matchFront_some_iff] at hm <;>
      have hne : r ≠ [] := by
        intro hr
        rw [hr] at hdp
        cases hdp
    · exact Or.inl ⟨[], by simp, r, hne, by simpa using hm⟩
    · exact Or.inl ⟨str "init.svc.", by simp, r, hne, by simpa [List.append_assoc] using hm⟩
    · exact Or.inl ⟨str "ro.", by simp, r, hne, by simpa [List.append_assoc] using hm⟩
    · exact Or.inl ⟨str "persist.", by simp, r, hne, by simpa [List.append_assoc] using hm⟩
    · exact Or.inr ⟨r, hne, hm⟩
  · rintro (⟨pre, hpre, rest, hne, rfl⟩ | ⟨rest, hne, rfl⟩)
    · have hdp : dotPlus rest = true := by
        refine dotPlus_of_allowed _ rest (fun c hc => ?_) hs hne
        simp [List.mem_append, hc]
      simp only [List.mem_cons, List.mem_singleton, List.not_mem_nil, or_false] at hpre
      rcases hpre with rfl | rfl | rfl | rfl
      · exact Or.inl (Or.inl (Or.inl (Or.inl
          ⟨rest, matchFront_some_iff _ _ _ |>.mpr (by simp), hdp⟩)))
      · exact Or.inl (Or.inl (Or.inl (Or.inr
          ⟨rest, matchFront_some_iff _ _ _ |>.mpr (by simp), hdp⟩)))
      · exact Or.inl (Or.inl (Or.inr
          ⟨rest, matchFront_some_iff _ _ _ |>.mpr (by simp), hdp⟩))
      · exact Or.inl (Or.inr
          ⟨rest, matchFront_some_iff _ _ _ |>.mpr (by simp), hdp⟩)
    · have hdp : dotPlus rest = true := by
        refine dotPlus_of_allowed _ rest (fun c hc => ?_) hs hne
        simp [List.mem_append, hc]
      exact Or.inr ⟨rest, matchFront_some_iff _ _ _ |>.mpr rfl, hdp⟩

/-- C4: on well-formed names the ownership check is exactly the spec's pattern
rule — Platform forbids both namespace patterns, Vendor requires the vendor
pattern, Odm requires the odm pattern — and concretely a Platform-owned
`vendor.foo` fails validation, a Vendor-owned `vendor.foo` passes, and a
Vendor-owned `foo` fails. -/
theorem c4_ownership_namespace (owner : Owner) (name : Str)
    (h : IsCorrectPropertyOrApiName name = true) :
    (ownershipCheck owner name = none ↔
      (match owner with
       | Owner.Platform => ¬ NsPattern (str "vendor.") name ∧ ¬ NsPattern (str "odm.") name
       | Owner.Vendor => NsPattern (str "vendor.") name
       | Owner.Odm => NsPattern (str "odm.") name)) ∧
    ValidateProp platProps vfooProp = some (ValidationError.platformNamespace (str "vendor.foo")) ∧
    ValidateProp vendorProps vfooProp = none ∧
    ValidateProp vendorProps fooProp = some (ValidationError.vendorNamespace (str "foo")) := by
  refine ⟨?_, by decide, by decide, by decide⟩
  cases owner with
  | Platform =>
    simp only [ownershipCheck]
    rw [← nsRegexMatch_iff (str "vendor.") name h, ← nsRegexMatch_iff (str "odm.") name h]
    by_cases h1 : nsRegexMatch (str "vendor.") name = true <;>
      by_cases h2 : nsRegexMatch (str "odm.") name = true <;>
        simp [h1, h2]
  | Vendor =>
    simp only [ownershipCheck]
    rw [← nsRegexMatch_iff (str "vendor.") name h]
    by_cases h1 : nsRegexMatch (str "vendor.") name = true <;> simp [h1]
  | Odm =>
    simp only [ownershipCheck]
    rw [← nsRegexMatch_iff (str "odm.") name h]
    by_cases h1 : nsRegexMatch (str "odm.") name = true <;> simp [h1]

/-- Witness for C4: instantiating the ownership theorem at a Vendor-owned
property named `vendor.foo` (matching the pattern with empty optional prefix
and remainder `foo`) shows the check passes there. -/
theorem c4_ownership_namespace_witness :
    ownershipCheck Owner.Vendor (str "vendor.foo") = none :=
  (c4_ownership_namespace Owner.Vendor (str "vendor.foo") (by decide)).1.mpr
    (Or.inl ⟨[], by simp, str "foo", by decide, by decide⟩)

theorem dupApiGo_eq_none (seen : List Str) (ps : List Property) :
    dupApiGo seen ps = none ↔
      (ps.map (fun p => ApiNameToIdentifier p.api_name)).Nodup ∧
      ∀ p ∈ ps, ApiNameToIdentifier p.api_name ∉ seen := by
  induction ps generalizing seen with
  | nil => simp [dupApiGo]
  | cons p rest ih =>
    simp only [dupApiGo]
    by_cases h : ApiNameToIdentifier p.api_name ∈ seen
    · rw [if_pos h]
      constructor
      · intro hc; cases hc
      · rintro ⟨-, hall⟩
        exact absurd h (hall p (List.mem_cons_self p rest))
    · rw [if_neg h, ih]
      simp only [List.map_cons, List.nodup_cons]
      constructor
      · rintro ⟨hnd, hall⟩
        refine ⟨⟨?_, hnd⟩, ?_⟩
        · intro hmem
          obtain ⟨q, hq, heq⟩ := List.mem_map.mp hmem
          exact (hall q hq) (heq ▸ List.mem_cons_self _ _)
        · intro q hq
          rcases List.mem_cons.mp hq with rfl | hq'
          · exact h
          · exact fun hin => (hall q hq') (List.mem_cons_of_mem _ hin)
      · rintro ⟨⟨hnotin, hnd⟩, hall⟩
        refine ⟨hnd, ?_⟩
        intro q hq hin
        rcases List.mem_cons.mp hin with heq | hin'
        · exact hnotin (List.mem_map.mpr ⟨q, hq, heq⟩)
        · exact (hall q (List.mem_cons_of_mem _ hq)) hin'

/-- C3 counterexample: a schema whose api_names `"test-x"` and `"test.x"`
sanitize to the same identifier but whose module name `"x"` is invalid fails
validation with the invalid-module error — not with the duplicate-API-name
error the claim names for every such schema. -/
theorem c3_duplicate_api_counterexample :
    ApiNameToIdentifier (str "test-x") = str "test_x" ∧
    ApiNameToIdentifier (str "test.x") = str "test_x" ∧
    str "test-x" ≠ str "test.x" ∧
    ValidateProps badModuleDupApiSchema = some (ValidationError.invalidModuleName (str "x")) ∧
    isDupApiError (ValidateProps badModuleDupApiSchema) = false := by decide

/-- C3 (amended): a sanitized-api-name collision always makes validation fail —
with the duplicate-API-name error when the module and per-property checks pass,
shown on the schema pairing `"test-x"` with `"test.x"` — and the cross-property
uniqueness check passes exactly when the sanitized api_names are pairwise
distinct. -/
theorem c3_duplicate_api_names :
    (∀ ps : List Property, dupApiGo [] ps = none ↔
      (ps.map (fun p => ApiNameToIdentifier p.api_name)).Nodup) ∧
    (∀ P : Properties, ¬ (P.prop.map (fun p => ApiNameToIdentifier p.api_name)).Nodup →
      ValidateProps P ≠ none) ∧
    ValidateProps dupApiSchema = some (ValidationError.duplicatedApiName (str "test.x")) := by
  refine ⟨?_, ?_, by decide⟩
  · intro ps
    rw [dupApiGo_eq_none]
    simp
  · intro P hnd hvp
    simp only [ValidateProps] at hvp
    by_cases h1 : (Split P.module '.').length ≤ 1
    · rw [if_pos h1] at hvp; cases hvp
    rw [if_neg h1] at hvp
    cases h2 : (Split P.module '.').find? (fun n => !IsCorrectIdentifier n) with
    | some n => rw [h2] at hvp; cases hvp
    | none =>
      rw [h2] at hvp
      by_cases h3 : P.prop.length = 0
      · rw [if_pos h3] at hvp; cases hvp
      rw [if_neg h3] at hvp
      cases h4 : validateEach P P.prop with
      | some e => rw [h4] at hvp; cases hvp
      | none =>
        rw [h4] at hvp
        exact hnd ((dupApiGo_eq_none [] P.prop).mp hvp).1

/-- Witness for C3: applying the collision implication to the concrete
colliding schema shows its validation indeed fails. -/
theorem c3_duplicate_api_names_witness : ValidateProps dupApiSchema ≠ none :=
  c3_duplicate_api_names.2.1 dupApiSchema (by decide)

theorem ciDupCheck_eq_none (api : Str) (seen : List Str) (l : List Str) :
    ciDupCheck api seen l = none ↔
      (l.map ToUpper).Nodup ∧ ∀ x ∈ l, ToUpper x ∉ seen := by
  induction l generalizing seen with
  | nil => simp [ciDupCheck]
  | cons n rest ih =>
    simp only [ciDupCheck]
    by_cases h : ToUpper n ∈ seen
    · rw [if_pos h]
      constructor
      · intro hc; cases hc
      · rintro ⟨-, hall⟩
        exact absurd h (hall n (List.mem_cons_self n rest))
    · rw [if_neg h, ih]
      simp only [List.map_cons, List.nodup_cons]
      constructor
      · rintro ⟨hnd, hall⟩
        refine ⟨⟨?_, hnd⟩, ?_⟩
        · intro hmem
          obtain ⟨q, hq, heq⟩ := List.mem_map.mp hmem
          exact (hall q hq) (heq ▸ List.mem_cons_self _ _)
        · intro q hq
          rcases List.mem_cons.mp hq with rfl | hq'
          · exact h
          · exact fun hin => (hall q hq') (List.mem_cons_of_mem _ hin)
      · rintro ⟨⟨hnotin, hnd⟩, hall⟩
        refine ⟨hnd, ?_⟩
        intro q hq hin
        rcases List.mem_cons.mp hin with heq | hin'
        · exact hnotin (List.mem_map.mpr ⟨q, hq, heq⟩)
        · exact (hall q (List.mem_cons_of_mem _ hq)) hin'

theorem ciDupCheck_some_shape (api : Str) (seen : List Str) (l : List Str)
    (e : ValidationError) (h : ciDupCheck api seen l = some e) :
    ∃ n, e = ValidationError.duplicatedEnumValue n api := by
  induction l generalizing seen with
  | nil => cases h
  | cons n rest ih =>
    simp only [ciDupCheck] at h
    by_cases hm : ToUpper n ∈ seen
    · rw [if_pos hm] at h
      cases h
      exact ⟨n, rfl⟩
    · rw [if_neg hm] at h
      exact ih _ h

/-- C8 counterexample: `enum_values "1|1"` has two case-insensitively equal
tokens, yet validation fails with the invalid-enum-value error — the
identifier check runs before duplicate detection — not with a duplicate-value
error, refuting the claim's "exactly when". -/
theorem c8_enum_dup_counterexample :
    ¬ ((Split (str "1|1") '|').map ToUpper).Nodup ∧
    ValidateProp platProps enumInvalidDupProp =
      some (ValidationError.invalidEnumValue (str "1") (str "myenum")) ∧
    isDupEnumError (ValidateProp platProps enumInvalidDupProp) = false := by decide

/-- C8 (amended): for an Enum/EnumList property the check fails with a
duplicate-value error exactly when every `|`-token is a valid identifier AND
two tokens are case-insensitively equal; when all tokens are valid identifiers
the per-property enum check passes exactly when the uppercased tokens are
pairwise distinct; and the claim's example `"a|A"` fails with the
duplicate-value error naming token `A`. -/
theorem c8_enum_ci_duplicates (prop : Property)
    (ht : prop.type = PropType.Enum ∨ prop.type = PropType.EnumList) :
    (isDupEnumError (enumTypeCheck prop) = true ↔
      ((∀ n ∈ Split prop.enum_values '|', IsCorrectIdentifier n = true) ∧
        ¬ ((Split prop.enum_values '|').map ToUpper).Nodup)) ∧
    ((∀ n ∈ Split prop.enum_values '|', IsCorrectIdentifier n = true) →
      (enumTypeCheck prop = none ↔ ((Split prop.enum_values '|').map ToUpper).Nodup)) ∧
    ValidateProp platProps enumDupProp =
      some (ValidationError.duplicatedEnumValue (str "A") (str "myenum")) := by
  have htb : (decide (prop.type = PropType.Enum) || decide (prop.type = PropType.EnumList)) =
      true := by
    rcases ht with h | h <;> simp [h]
  have hE : (Split prop.enum_values '|').isEmpty = false := by
    cases hsp : Split prop.enum_values '|' with
    | nil => exact absurd hsp (Split_ne_nil _ _)
    | cons a l => rfl
  refine ⟨?_, ?_, by decide⟩ <;>
    simp only [enumTypeCheck, htb, if_true, hE, Bool.false_eq_true, if_false]
  · cases hf : (Split prop.enum_values '|').find? (fun n => !IsCorrectIdentifier n) with
    | some n =>
      have pn := List.find?_some hf
      simp only [Bool.not_eq_true'] at pn
      have hn : n ∈ Split prop.enum_values '|' := List.mem_of_find?_eq_some hf
      refine iff_of_false (by simp [isDupEnumError]) ?_
      rintro ⟨hvalid, -⟩
      rw [hvalid n hn] at pn
      simp at pn
    | none =>
      have hvalid : ∀ n ∈ Split prop.enum_values '|', IsCorrectIdentifier n = true := by
        intro n hn
        have := List.find?_eq_none.mp hf n hn
        simpa using this
      cases hc : ciDupCheck prop.api_name [] (Split prop.enum_values '|') with
      | none =>
        have hnd := ((ciDupCheck_eq_none _ _ _).mp hc).1
        exact iff_of_false (by simp [isDupEnumError]) (fun h => h.2 hnd)
      | some e =>
        obtain ⟨n, rfl⟩ := ciDupCheck_some_shape _ _ _ _ hc
        refine iff_of_true (by simp [isDupEnumError]) ⟨hvalid, ?_⟩
        intro hnd
        have : ciDupCheck prop.api_name [] (Split prop.enum_values '|') = none :=
          (ciDupCheck_eq_none _ _ _).mpr ⟨hnd, by simp⟩
        rw [hc] at this
        cases this
  · intro hvalid
    cases hf : (Split prop.enum_values '|').find? (fun n => !IsCorrectIdentifier n) with
    | some n =>
      have pn := List.find?_some hf
      simp only [Bool.not_eq_true'] at pn
      have hn : n ∈ Split prop.enum_values '|' := List.mem_of_find?_eq_some hf
      rw [hvalid n hn] at pn
      simp at pn
    | none =>
      rw [ciDupCheck_eq_none]
      simp

/-- Witness for C8: instantiating the amended theorem at the valid,
duplicate-free `enum_values "a|b"` shows the per-property enum check passes. -/
theorem c8_enum_ci_duplicates_witness : enumTypeCheck enumOkProp = none :=
  ((c8_enum_ci_duplicates enumOkProp (Or.inl rfl)).2.1 (by decide)).mpr (by decide)
